import Mathlib

/-!
Verification of the spinner-composition layer of `alive_progress`
(`src/alive_progress/animations/spinners.py`), translated as a shallow
embedding: each Python factory becomes a pure Lean function from an optional
bound width (`Option Nat`, `none` standing for Python `None`) to a spinner
instance.  Python generator state is made explicit: an instance is represented
by its `cycles` value together with the endless frame stream a Player (the
restart-on-exhaustion wrapper) reads from it, as a function `Nat → String`.
Fallible binds return `Except PyErr`.  The sliding-window engine and the
`repeating`/`spinner_player` utilities live in `utils.py`, which is not part
of the sources; those are modelled from the specification (each such
definition is marked `Modelled from the spec:`).  Python's float ratio
arithmetic is modelled exactly over naturals (floor division).
-/

namespace AliveProgress

/-- Python truthiness of an optional int: `None` and `0` are falsy. -/
def optT : Option Nat → Bool
  | none => false
  | some n => n != 0

/-- Python `x or d` for an optional int `x`: keep `x` when truthy, else `d`. -/
def orElseT : Option Nat → Nat → Nat
  | none, d => d
  | some n, d => if n != 0 then n else d

/-- Python `s or d` for an optional string `s` (empty string is falsy). -/
def orElseStr : Option String → String → String
  | none, d => d
  | some s, d => if s.length != 0 then s else d

/-- Ceiling division on naturals, `math.ceil(a / b)` for `b > 0`. -/
def ceilDiv (a b : Nat) : Nat := (a + b - 1) / b

/-- Modelled from the spec: the `repeating` utility from `utils.py` (not under
`src/`) "fixes/pads every frame to exactly `width`"; we pad with spaces or
truncate to the requested width. -/
def fixWidth (w : Nat) (s : String) : String :=
  if w ≤ s.length then String.mk (s.data.take w)
  else String.mk (s.data ++ List.replicate (w - s.length) ' ')

/-- Modelled from the spec: when `repeating` received no width (`None`) the
frame is passed through unchanged. -/
def padTo : Option Nat → String → String
  | none, s => s
  | some w, s => fixWidth w s

/-- Error kinds a bind can raise, mirroring the Python exceptions. -/
inductive PyErr where
  | valueError
  | typeError
  | zeroDivisionError
deriving DecidableEq, Repr

/-- A spinner instance: the realization of a builder at one width.  `cycles`
is the advertised period, `stream t` is the frame obtained at the t-th pull
through a Player (the restart-on-exhaustion wrapper), `width` the bound width
the instance renders at, and `players` the sub-streams exposed by compound
instances (empty otherwise). -/
structure SpinnerInstance where
  cycles : Nat
  width : Nat
  stream : Nat → String
  players : List (Nat → String)

/-- Python truthiness checker for `Except` results. -/
def isOkE {α : Type} (e : Except PyErr α) : Bool :=
  match e with
  | .ok _ => true
  | .error _ => false

/-- Negation of `isOkE`: the bind raised. -/
def isErrE {α : Type} (e : Except PyErr α) : Bool := !isOkE e

/-! ### The sliding-window engine, modelled from the spec (utils.py is not
under src/).  The ribbon is a circular tape of content cells and background
cells; frames are width-wide windows read from it, advancing by `step` each
tick from `start`. -/

/-- Modelled from the spec: the tape places each content segment preceded by
`gap` background cells (`none` marks a background cell). -/
def tapeCells (gap : Nat) (contents : List String) : List (Option Char) :=
  (contents.map (fun seg => List.replicate gap none ++ seg.data.map some)).flatten

/-- Background pattern cell at index `i`, tiling the pattern. -/
def bgCharAt (bg : String) (i : Nat) : Char :=
  bg.data.getD (i % bg.length) ' '

/-- Circular tape index for an integer position (`Int.emod` is nonnegative for
a positive modulus, matching Python's `%`). -/
def tapeIndex (n : Nat) (pos : Int) : Nat :=
  if n = 0 then 0 else (pos % (n : Int)).toNat

/-- Modelled from the spec: `static_sliding_window_factory` — background cells
participate in the moving tape, frames are `width`-wide windows read
circularly, starting at `start` and advancing by `step` per tick. -/
def staticWindow (bg : String) (gap : Nat) (contents : List String)
    (width : Nat) (step start : Int) : Nat → String :=
  fun t =>
    let tape := tapeCells gap contents
    String.mk ((List.range width).map (fun (x : Nat) =>
      let j := tapeIndex tape.length (start + step * (t : Int) + (x : Int))
      (tape.getD j none).getD (bgCharAt bg j)))

/-- Modelled from the spec: `overlay_sliding_window_factory` — the background
is visually fixed to the screen; only content cells move, composited per cell
each tick. -/
def overlayWindow (bg : String) (gap : Nat) (contents : List String)
    (width : Nat) (step start : Int) : Nat → String :=
  fun t =>
    let tape := tapeCells gap contents
    String.mk ((List.range width).map (fun (x : Nat) =>
      let j := tapeIndex tape.length (start + step * (t : Int) + (x : Int))
      (tape.getD j none).getD (bgCharAt bg x)))

/-! ### Basic spinner builder (src lines 8-32, `frame_spinner_factory`). -/

/-- Frame list after the single-argument unpacking of src lines 28-29: a
single string is interpreted as one frame per character. -/
def basicFrames (args : List String) : List String :=
  match args with
  | [s] => s.data.map (fun c => String.mk [c])
  | fs => fs

/-- Natural width of a basic builder: width of its first frame (src line 31). -/
def basicNatural (args : List String) : Nat :=
  ((basicFrames args).headD "").length

/-- Bind of `frame_spinner_factory.inner_factory` (src lines 20-26): the
instance replays the frames forever (via the `repeating` wrapper, which also
fixes frames to the bound width when one is given); `cycles` is the frame
count. -/
def bindBasic (args : List String) (la : Option Nat) : SpinnerInstance :=
  let fs := basicFrames args
  { cycles := fs.length
    width := orElseT la (basicNatural args)
    stream := fun t => padTo la (fs.getD (t % fs.length) "")
    players := [] }

/-! ### Scrolling spinner builder (src lines 35-88,
`scrolling_spinner_factory`). -/

/-- Natural width of a scrolling builder, src line 87:
`length or len(chars)`. -/
def scrollingNatural (chars : String) (length : Option Nat) : Nat :=
  orElseT length chars.length

/-- Block size computed at bind time, src lines 58 and 65:
`ratio = length_actual / length` when both widths are truthy (else 1), and
`block_size = int((block or 0) * ratio) or len(chars)`.  Python computes the
product through binary64 floats; this definition renders it in exact
arithmetic (`int` being floor), which the relational properties below use;
`scrollingBlockSizePy` models the floating-point computation itself through
an abstract rounding function, and the two agree whenever the float
computation is exact (see `scrollingBlockSizePy_exact`). -/
def scrollingBlockSize (charsLen : Nat) (length block la : Option Nat) : Nat :=
  let raw := if optT length && optT la then
      (block.getD 0) * (la.getD 0) / (length.getD 0)
    else block.getD 0
  if raw != 0 then raw else charsLen

/-- Python `int()` truncation toward zero on the exact value of a float. -/
def pyInt (q : ℚ) : Int :=
  if q < 0 then -(Int.floor (-q)) else Int.floor q

/-- Property of a rounding function (`ℚ → ℚ` standing for the exact value of
the rounded double): it is the identity on nonnegative integers below
`2 ^ 53`.  This holds of IEEE-754 binary64 rounding in every rounding mode,
since such integers are exactly representable in a 53-bit significand. -/
def RoundsIntsExactly (flR : ℚ → ℚ) : Prop :=
  ∀ z : Nat, z < 2 ^ 53 → flR ((z : Nat) : ℚ) = ((z : Nat) : ℚ)

/-- Block size as src line 65 actually computes it, through binary64
arithmetic abstracted as a rounding function `flR`: `float(length_actual)`
and the implicit int-to-float conversions round their operands, IEEE
division and multiplication are correctly rounded (the result is the
rounding of the exact value), and `int(...)` truncates toward zero; the
`or len(chars)` fallback as in the source.  When the two widths are not both
truthy the ratio is the integer 1 and no float arithmetic happens
(overflow to infinity is outside this model). -/
def scrollingBlockSizePy (flR : ℚ → ℚ) (charsLen : Nat)
    (length block la : Option Nat) : Nat :=
  let raw : Int :=
    if optT length && optT la then
      pyInt (flR (flR ((block.getD 0 : Nat) : ℚ)
        * flR (flR ((la.getD 0 : Nat) : ℚ) / flR ((length.getD 0 : Nat) : ℚ))))
    else ((block.getD 0 : Nat) : Int)
  if raw != 0 then raw.toNat else charsLen

/-- Gap of a scrolling instance, src lines 66-69: the full bound width when
hiding, else `max(0, length_actual - block_size)` (natural subtraction). -/
def scrollingGap (hide : Bool) (laV bs : Nat) : Nat :=
  if hide then laV else laV - bs

/-- Bind of `scrolling_spinner_factory.inner_factory` (src lines 54-82).
Raises when `block` is truthy but neither width is (src lines 55-56);
otherwise builds the ribbon and an instance with
`cycles = gap + block_size` (src line 81).  The instance's player stream reads
successive ribbon values; restarts continue pulling from the same ribbon. -/
def bindScrolling (chars : String) (length block : Option Nat)
    (background : Option String) (right hide overlay : Bool)
    (la : Option Nat) : Except PyErr SpinnerInstance :=
  if optT block && !(optT la || optT length) then .error .valueError
  else
    let laV := orElseT la (scrollingNatural chars length)
    let bs := scrollingBlockSize chars.length length block la
    let gap := scrollingGap hide laV bs
    let start : Int := if !hide && right then
        (if optT block then -(bs : Int) else (((laV : Int) - (bs : Int)).natAbs : Int))
      else 0
    let contents := if optT block then
        ((if right then chars.data.reverse else chars.data).map
          (fun c => String.mk (List.replicate bs c)))
      else [chars]
    let bg := orElseStr background " "
    let step : Int := if right then -1 else 1
    let ribbon := if overlay then overlayWindow bg gap contents laV step start
                  else staticWindow bg gap contents laV step start
    .ok { cycles := gap + bs, width := laV, stream := ribbon, players := [] }

/-! ### Bouncing spinner builder (src lines 91-126,
`bouncing_spinner_factory`). -/

/-- Default left characters, src line 123: `left_chars = left_chars or
right_chars` (the right characters themselves, with Python's falsy empty
string also replaced). -/
def bouncingLeftChars (rightChars : String) (leftChars : Option String) : String :=
  match leftChars with
  | none => rightChars
  | some s => if s.length != 0 then s else rightChars

/-- Keyword parameters accepted by `scrolling_spinner_factory`
(src lines 35-36). -/
def scrollingKwParams : List String :=
  ["chars", "length", "block", "background", "right", "hiding", "overlay"]

/-- Keyword arguments `bouncing_spinner_factory.inner_factory` passes to
`scrolling_spinner_factory` (src lines 96-99). -/
def bouncingCallKwArgs : List String := ["block", "blank", "right", "hiding"]

/-- Direction size for one pass of a bouncing spinner, src lines 115-118:
`length_actual + block_size` when hiding, else
`abs(length_actual - block_size) or 1`. -/
def bouncingDirectionSize (hide : Bool) (laV bs : Nat) : Nat :=
  if hide then laV + bs
  else
    let d := ((laV : Int) - (bs : Int)).natAbs
    if d != 0 then d else 1

/-- Modelled from the spec: the intended bind of
`bouncing_spinner_factory.inner_factory` (src lines 95-121), with the blank
pattern shared with the two scrolling builders as their background (the spec
says both directions share `length`, `block`, `background`, `hiding`).  One
period plays `right_direction_size` frames of the rightward scroller followed
by `left_direction_size` frames of the leftward one; the wrapped generator
consumes a full `cycles_right` (resp. `cycles_left`) ribbon stretch per
period, yielding only the first `direction_size` of them. -/
def bouncingIntended (rightChars : String) (length : Nat) (block : Option Nat)
    (leftChars : Option String) (blank : String) (hide : Bool)
    (la : Option Nat) : Except PyErr SpinnerInstance :=
  match bindScrolling rightChars (some length) block (some blank) true hide false la,
        bindScrolling (bouncingLeftChars rightChars leftChars) (some length) block
          (some blank) false hide false la with
  | .ok rightScroll, .ok leftScroll =>
    let laV := orElseT la length
    let rbs := scrollingBlockSize rightChars.length (some length) block la
    let lbs := scrollingBlockSize (bouncingLeftChars rightChars leftChars).length
      (some length) block la
    let rds := bouncingDirectionSize hide laV rbs
    let lds := bouncingDirectionSize hide laV lbs
    let cyc := rds + lds
    .ok { cycles := cyc
          width := laV
          stream := fun t =>
            let k := t / cyc
            let r := t % cyc
            padTo la (if r < rds then rightScroll.stream (k * rightScroll.cycles + r)
                      else leftScroll.stream (k * leftScroll.cycles + (r - rds)))
          players := [] }
  | .error e, _ => .error e
  | _, .error e => .error e

/-- Bind of `bouncing_spinner_factory.inner_factory` as written in src lines
95-121: the calls at src lines 96-99 pass the keyword argument `blank`, which
`scrolling_spinner_factory` (src lines 35-36) does not accept, so Python
raises `TypeError` before anything else runs. -/
def bindBouncing (rightChars : String) (length : Nat) (block : Option Nat)
    (leftChars : Option String) (blank : String) (hide : Bool)
    (la : Option Nat) : Except PyErr SpinnerInstance :=
  if bouncingCallKwArgs.all (fun k => scrollingKwParams.contains k) then
    bouncingIntended rightChars length block leftChars blank hide la
  else .error .typeError

/-! ### Compound spinner builder (src lines 129-152,
`compound_spinner_factory`). -/

/-- Width apportioned to each sub-builder, src line 140:
`length_actual and int(math.ceil(length_actual / n))` (Python `and` keeps a
falsy left operand). -/
def eachLength (la : Option Nat) (n : Nat) : Option Nat :=
  if optT la then some (ceilDiv (la.getD 0) n) else la

/-- Error a compound bind over zero sub-builders raises: `ZeroDivisionError`
from src line 140 when the width is truthy, else `ValueError` from `max` of
an empty sequence at src line 143. -/
def compoundEmptyErr (la : Option Nat) : PyErr :=
  if optT la then .zeroDivisionError else .valueError

/-- Assembly of a compound instance from its bound sub-instances (src lines
133-148): each sub-instance is wrapped in a Player (its endless stream);
`cycles` is the maximum of the sub-cycles (src lines 142-143, 146); each tick
joins the players' next frames in order, the `repeating` wrapper fixing the
result to the bound width when one was given. -/
def compoundAssemble (la : Option Nat) (insts : List SpinnerInstance) :
    SpinnerInstance :=
  let players := insts.map (fun i => i.stream)
  { cycles := (insts.map (fun i => i.cycles)).foldl Nat.max 0
    width := orElseT la ((insts.map (fun i => i.width)).sum)
    stream := fun t => padTo la (String.join (players.map (fun p => p t)))
    players := players }

/-! ### Delayed spinner builder (src lines 155-174,
`delayed_spinner_factory`). -/

/-- Number of copies at bind time, src lines 165-166:
`ceil(length_actual / natural)` when the width is truthy (raising
`ZeroDivisionError` when the sub-builder's natural width is 0), else the
configured `copies`. -/
def delayedCopiesActual (subNatural copies : Nat) (la : Option Nat) :
    Except PyErr Nat :=
  if optT la then
    if subNatural = 0 then .error .zeroDivisionError
    else .ok (ceilDiv (la.getD 0) subNatural)
  else .ok copies

/-- Phase shift applied by src lines 168-170: the i-th player has `i * offset`
frames discarded before any caller reads it, so its t-th visible frame is the
underlying stream's frame `t + i * offset`. -/
def shiftPlayers (offset : Nat) (players : List (Nat → String)) :
    List (Nat → String) :=
  players.enum.map (fun ip => fun t => ip.2 (t + ip.1 * offset))

/-- Bind of `delayed_spinner_factory.inner_factory` (src lines 162-171):
build a compound of `copies_actual` references to the same sub-builder, bind
it, then discard `i * offset` frames from the i-th player.  All copies are
the same factory bound at the same apportioned width, and binding is pure, so
the sub-builder is bound once and replicated. -/
def bindDelayed (subBind : Option Nat → Except PyErr SpinnerInstance)
    (subNatural copies offset : Nat) (la : Option Nat) :
    Except PyErr SpinnerInstance :=
  match delayedCopiesActual subNatural copies la with
  | .error e => .error e
  | .ok ca =>
    if ca = 0 then .error (compoundEmptyErr la)
    else
      match subBind (eachLength la ca) with
      | .error e => .error e
      | .ok si =>
        let base := compoundAssemble la (List.replicate ca si)
        let shifted := shiftPlayers offset base.players
        .ok { cycles := base.cycles
              width := base.width
              stream := fun t => padTo la (String.join (shifted.map (fun p => p t)))
              players := shifted }

/-! ### Builders of any kind, and the uniform bind operation. -/

/-- Configuration space of the five builder kinds, as captured at definition
time by the corresponding factory. -/
inductive Builder where
  | basic (args : List String)
  | scrolling (chars : String) (length block : Option Nat)
      (background : Option String) (right hide overlay : Bool)
  | bouncing (rightChars : String) (length : Nat) (block : Option Nat)
      (leftChars : Option String) (blank : String) (hide : Bool)
  | compound (subs : List Builder)
  | delayed (sub : Builder) (copies offset : Nat)
deriving Inhabited

mutual

/-- The `natural` attribute each factory sets at definition time (src lines
31, 87, 125, 150-151, 173). -/
def naturalOf : Builder → Nat
  | .basic args => basicNatural args
  | .scrolling chars length _ _ _ _ _ => scrollingNatural chars length
  | .bouncing _ length _ _ _ _ => length
  | .compound subs => naturalSum subs
  | .delayed sub copies _ => naturalOf sub * copies

/-- Sum of the naturals of a list of builders (src lines 150-151). -/
def naturalSum : List Builder → Nat
  | [] => 0
  | b :: bs => naturalOf b + naturalSum bs

end

mutual

/-- Uniform bind: calling a builder (the factory's `inner_factory`) at an
optional width yields an instance or a raised exception. -/
def bind : Builder → Option Nat → Except PyErr SpinnerInstance
  | .basic args, la => .ok (bindBasic args la)
  | .scrolling chars length block background right hide overlay, la =>
      bindScrolling chars length block background right hide overlay la
  | .bouncing rightChars length block leftChars blank hide, la =>
      bindBouncing rightChars length block leftChars blank hide la
  | .compound subs, la =>
      if subs.length = 0 then .error (compoundEmptyErr la)
      else
        match bindList subs (eachLength la subs.length) with
        | .error e => .error e
        | .ok insts => .ok (compoundAssemble la insts)
  | .delayed sub copies offset, la =>
      bindDelayed (fun el => bind sub el) (naturalOf sub) copies offset la

/-- Bind every sub-builder of a compound at the apportioned width
(src line 141), propagating the first raised exception. -/
def bindList : List Builder → Option Nat → Except PyErr (List SpinnerInstance)
  | [], _ => .ok []
  | b :: bs, el =>
      match bind b el with
      | .error e => .error e
      | .ok i =>
        match bindList bs el with
        | .error e => .error e
        | .ok is => .ok (i :: is)

end

mutual

/-- Nondegenerate configurations: basic frames nonempty, all of the first
frame's nonzero width; scrolling characters nonempty; bouncing length
nonzero; compounds nonempty with nondegenerate members; delayed copies
nonzero over a nondegenerate sub-builder. -/
def GoodB : Builder → Bool
  | .basic args =>
      let fs := basicFrames args
      !fs.isEmpty && (fs.headD "").length != 0 &&
        fs.all (fun f => f.length = (fs.headD "").length)
  | .scrolling chars _ _ _ _ _ _ => chars.length != 0
  | .bouncing _ length _ _ _ _ => length != 0
  | .compound subs => !subs.isEmpty && GoodList subs
  | .delayed sub copies _ => copies != 0 && GoodB sub

/-- All builders of a list are nondegenerate. -/
def GoodList : List Builder → Bool
  | [] => true
  | b :: bs => GoodB b && GoodList bs

end

/-- Cycles of a bind result (0 when the bind raised). -/
def cyclesOf (e : Except PyErr SpinnerInstance) : Nat :=
  match e with
  | .ok i => i.cycles
  | .error _ => 0

/-- Frame stream of a bind result (empty frames when the bind raised). -/
def streamAt (e : Except PyErr SpinnerInstance) (t : Nat) : String :=
  match e with
  | .ok i => i.stream t
  | .error _ => ""

/-- Stream that produces only empty frames, used as a lookup default. -/
def deadStream : Nat → String := fun _ => ""

/-- Frame of the i-th player of a bind result. -/
def playerAt (e : Except PyErr SpinnerInstance) (i t : Nat) : String :=
  match e with
  | .ok r => (r.players.getD i deadStream) t
  | .error _ => ""

/-- Widths a caller may bind at: absent, or at least one cell. -/
def laOk : Option Nat → Prop
  | none => True
  | some w => 0 < w

instance (la : Option Nat) : Decidable (laOk la) := by
  cases la with
  | none => exact isTrue trivial
  | some w => exact Nat.decLt 0 w

/-- Instance-level invariant of the frame contract at a binding width `la`
over a builder whose natural width is `nat0`: the instance's bound width is
the given width (or the natural one when absent), its period is at least 1,
and every frame it can ever produce has exactly the bound width. -/
def InstGoodAt (la : Option Nat) (nat0 : Nat) (inst : SpinnerInstance) : Prop :=
  inst.width = orElseT la nat0 ∧ 1 ≤ inst.cycles ∧
    ∀ t, (inst.stream t).length = inst.width

/-- Builder-level invariant: the natural width is at least 1, and every
successful bind at an allowed width yields an instance satisfying
`InstGoodAt`. -/
def BuilderGoodP (b : Builder) : Prop :=
  1 ≤ naturalOf b ∧
  ∀ (la : Option Nat), laOk la →
    ∀ (inst : SpinnerInstance), bind b la = .ok inst →
      InstGoodAt la (naturalOf b) inst

/-! ### Explicit Player state, for determinism and independence claims.
A Player owns one instance's endless stream and a read position; Python's
hidden generator state becomes this explicit record. -/

/-- One Player's generator state. -/
structure PlayerSt where
  stream : Nat → String
  pos : Nat

/-- Produce the next frame and advance the Player. -/
def playNext (p : PlayerSt) : String × PlayerSt :=
  (p.stream p.pos, { stream := p.stream, pos := p.pos + 1 })

/-- Run two independent Players under an arbitrary interleaving schedule:
`true` advances the first, `false` the second; returns the frames each side
produced, in order. -/
def runSched : List Bool → PlayerSt → PlayerSt → List String × List String
  | [], _, _ => ([], [])
  | true :: sch, p, q =>
    let fp := playNext p
    let rest := runSched sch fp.2 q
    (fp.1 :: rest.1, rest.2)
  | false :: sch, p, q =>
    let fq := playNext q
    let rest := runSched sch p fq.2
    (rest.1, fq.1 :: rest.2)

/-- The `k` frames a stream yields starting at position `pos`. -/
def readAhead (s : Nat → String) : Nat → Nat → List String
  | _, 0 => []
  | pos, k + 1 => s pos :: readAhead s (pos + 1) k

/-! ### General lemmas about the embedding. -/

theorem orElseT_pos {n : Nat} (d : Nat) (h : 0 < n) : orElseT (some n) d = n := by
  simp only [orElseT, bne_iff_ne, ne_eq]
  rw [if_pos (by omega)]

theorem optT_some_pos {n : Nat} (h : 0 < n) : optT (some n) = true := by
  simp only [optT, bne_iff_ne, ne_eq, decide_eq_true_eq]
  omega

theorem length_mk (l : List Char) : (String.mk l).length = l.length := rfl

theorem fixWidth_length (w : Nat) (s : String) : (fixWidth w s).length = w := by
  unfold fixWidth
  split <;> rename_i h
  · rw [length_mk, List.length_take]
    have : s.data.length = s.length := rfl
    omega
  · rw [length_mk, List.length_append, List.length_replicate]
    have : s.data.length = s.length := rfl
    omega

theorem tapeIndex_add_mul (n : Nat) (a s : Int) :
    tapeIndex n (a + s * (n : Int)) = tapeIndex n a := by
  unfold tapeIndex
  split
  · rfl
  · rw [Int.add_mul_emod_self]

/-- The static ribbon repeats with the tape's length as its period. -/
theorem staticWindow_period (bg : String) (gap : Nat) (cs : List String)
    (width : Nat) (step start : Int) (n : Nat)
    (hn : (tapeCells gap cs).length = n) (t : Nat) :
    staticWindow bg gap cs width step start (t + n) =
      staticWindow bg gap cs width step start t := by
  unfold staticWindow
  show String.mk _ = String.mk _
  congr 1
  apply List.map_congr_left
  intro x _
  have harg : start + step * ((t + n : Nat) : Int) + (x : Int)
      = (start + step * (t : Int) + (x : Int)) + step * (n : Int) := by
    push_cast
    ring
  rw [hn, harg, tapeIndex_add_mul]

theorem staticWindow_length (bg : String) (gap : Nat) (cs : List String)
    (width : Nat) (step start : Int) (t : Nat) :
    (staticWindow bg gap cs width step start t).length = width := by
  unfold staticWindow
  rw [length_mk, List.length_map, List.length_range]

theorem overlayWindow_length (bg : String) (gap : Nat) (cs : List String)
    (width : Nat) (step start : Int) (t : Nat) :
    (overlayWindow bg gap cs width step start t).length = width := by
  unfold overlayWindow
  rw [length_mk, List.length_map, List.length_range]

theorem foldl_max_init (l : List Nat) (a : Nat) : a ≤ l.foldl Nat.max a := by
  induction l generalizing a with
  | nil => simp
  | cons x xs ih => exact le_trans (Nat.le_max_left a x) (ih _)

theorem mem_le_foldl_max (l : List Nat) : ∀ (a x : Nat), x ∈ l →
    x ≤ l.foldl Nat.max a := by
  induction l with
  | nil => intro a x hx; cases hx
  | cons y ys ih =>
    intro a x hx
    rcases List.mem_cons.mp hx with h | h
    · subst h
      exact le_trans (Nat.le_max_right a x) (foldl_max_init ys _)
    · exact ih _ _ h

theorem foldl_max_attained (l : List Nat) : ∀ (a : Nat),
    l.foldl Nat.max a = a ∨ ∃ x ∈ l, l.foldl Nat.max a = x := by
  induction l with
  | nil => intro a; exact .inl rfl
  | cons y ys ih =>
    intro a
    rcases ih (Nat.max a y) with h | ⟨x, hx, hfx⟩
    · rcases Nat.le_total y a with hy | hy
      · left
        rw [List.foldl_cons, h]
        exact Nat.max_eq_left hy
      · right
        refine ⟨y, List.mem_cons_self _ _, ?_⟩
        rw [List.foldl_cons, h]
        exact Nat.max_eq_right hy
    · refine .inr ⟨x, List.mem_cons_of_mem _ hx, ?_⟩
      rw [List.foldl_cons]
      exact hfx

theorem bindList_length :
    ∀ (subs : List Builder) (el : Option Nat) (insts : List SpinnerInstance),
      bindList subs el = .ok insts → insts.length = subs.length := by
  intro subs
  induction subs with
  | nil =>
    intro el insts h
    unfold bindList at h
    cases h
    rfl
  | cons b bs ih =>
    intro el insts h
    unfold bindList at h
    cases hb : bind b el with
    | error e => rw [hb] at h; cases h
    | ok i =>
      rw [hb] at h
      cases hbs : bindList bs el with
      | error e => rw [hbs] at h; cases h
      | ok is =>
        rw [hbs] at h
        cases h
        simp [ih el is hbs]

/-- A periodic stream only depends on the tick modulo the period. -/
theorem periodic_mod (f : Nat → String) (n : Nat)
    (hper : ∀ t, f (t + n) = f t) (hn : 0 < n) : ∀ a, f a = f (a % n) := by
  intro a
  induction a using Nat.strong_induction_on with
  | _ a ih =>
    by_cases h : a < n
    · rw [Nat.mod_eq_of_lt h]
    · have h3 := hper (a - n)
      rw [Nat.sub_add_cancel (by omega)] at h3
      calc f a = f (a - n) := h3
        _ = f ((a - n) % n) := ih (a - n) (by omega)
        _ = f (a % n) := by rw [Nat.mod_eq_sub_mod (show n ≤ a by omega)]

/-- The phase-shifted player list reads the underlying stream `i * offset`
ticks ahead. -/
theorem shiftPlayers_getD (offset : Nat) (ps : List (Nat → String)) (i : Nat)
    (hi : i < ps.length) (t : Nat) :
    ((shiftPlayers offset ps).getD i deadStream) t
      = (ps.getD i deadStream) (t + i * offset) := by
  unfold shiftPlayers
  rw [List.getD_eq_getElem?_getD, List.getD_eq_getElem?_getD]
  rw [List.getElem?_map, List.getElem?_enum]
  cases hp : ps[i]? with
  | none =>
    rw [List.getElem?_eq_none_iff] at hp
    omega
  | some p => rfl

theorem basicFrames_period (args : List String) (la : Option Nat) (t : Nat) :
    (bindBasic args la).stream (t + (bindBasic args la).cycles)
      = (bindBasic args la).stream t := by
  show padTo la ((basicFrames args).getD ((t + (basicFrames args).length)
      % (basicFrames args).length) "") = _
  rw [Nat.add_mod_right]
  rfl

theorem foldl_append_length (l : List String) : ∀ (a : String),
    (l.foldl (fun r s => r ++ s) a).length = a.length + (l.map String.length).sum := by
  induction l with
  | nil => intro a; simp
  | cons s ss ih =>
    intro a
    rw [List.foldl_cons, ih, String.length_append]
    simp [Nat.add_assoc]

theorem join_length (l : List String) :
    (String.join l).length = (l.map String.length).sum := by
  show (l.foldl (fun r s => r ++ s) "").length = _
  rw [foldl_append_length]
  simp

theorem ite_fallback_pos (raw charsLen : Nat) (h : charsLen ≠ 0) :
    1 ≤ (if raw != 0 then raw else charsLen) := by
  split
  · rename_i h2
    have h3 : ¬ (raw = 0) := by simpa using h2
    omega
  · omega

theorem scrollingBlockSize_pos (chars : String) (length block la : Option Nat)
    (hchars : chars.length ≠ 0) :
    1 ≤ scrollingBlockSize chars.length length block la :=
  ite_fallback_pos
    (if optT length && optT la then block.getD 0 * la.getD 0 / length.getD 0
     else block.getD 0)
    chars.length hchars

/-- When `length` divides the bound width and the values fit in 53 bits, the
floating-point block-size computation is exact: every intermediate value is a
nonnegative integer below `2 ^ 53`, so any binary64-style rounding leaves it
unchanged, and the program's block size coincides with the exact-arithmetic
model. -/
theorem scrollingBlockSizePy_exact (flR : ℚ → ℚ) (hfl : RoundsIntsExactly flR)
    (charsLen L b W : Nat) (hL : 0 < L) (hW : 0 < W) (hdvd : L ∣ W)
    (hb : b < 2 ^ 53) (hWbound : W < 2 ^ 53) (hbk : b * (W / L) < 2 ^ 53) :
    scrollingBlockSizePy flR charsLen (some L) (some b) (some W)
        = scrollingBlockSize charsLen (some L) (some b) (some W) ∧
    scrollingBlockSize charsLen (some L) (some b) (some W)
        = (if b * W / L ≠ 0 then b * W / L else charsLen) := by
  obtain ⟨k, hk⟩ := hdvd
  have hkval : W / L = k := by
    rw [hk]
    exact Nat.mul_div_cancel_left k hL
  have hL0 : ((L : Nat) : ℚ) ≠ 0 := Nat.cast_ne_zero.mpr (by omega)
  have hLbound : L < 2 ^ 53 := by
    have h1 : L ≤ W := Nat.le_of_dvd hW ⟨k, hk⟩
    omega
  have hkbound : k < 2 ^ 53 := by
    have h1 : k ≤ W := by
      rw [hk]
      exact Nat.le_mul_of_pos_left k hL
    omega
  have hbk2 : b * k < 2 ^ 53 := by
    rw [hkval] at hbk
    exact hbk
  have hratio : ((W : Nat) : ℚ) / ((L : Nat) : ℚ) = ((k : Nat) : ℚ) := by
    rw [hk]
    push_cast
    rw [mul_comm, mul_div_assoc, div_self hL0, mul_one]
  have hq : flR (flR ((b : Nat) : ℚ) * flR (flR ((W : Nat) : ℚ) / flR ((L : Nat) : ℚ)))
      = ((b * k : Nat) : ℚ) := by
    rw [hfl W hWbound, hfl L hLbound, hratio, hfl k hkbound, hfl b hb]
    have h1 : ((b : Nat) : ℚ) * ((k : Nat) : ℚ) = ((b * k : Nat) : ℚ) := by
      push_cast
      ring
    rw [h1, hfl (b * k) hbk2]
  have hpy : pyInt ((b * k : Nat) : ℚ) = ((b * k : Nat) : Int) := by
    unfold pyInt
    rw [if_neg (by exact not_lt.mpr (by positivity)), Int.floor_natCast]
  have hdiv : b * W / L = b * k := by
    rw [Nat.mul_div_assoc b ⟨k, hk⟩, hkval]
  have hc : (optT (some L) && optT (some W)) = true := by
    rw [optT_some_pos hL, optT_some_pos hW]
    rfl
  constructor
  · unfold scrollingBlockSizePy scrollingBlockSize
    rw [hc]
    simp only [if_true, Option.getD_some]
    rw [hq, hpy, hdiv]
    by_cases hz : b * k = 0
    · rw [hz]
      simp
    · have hbne : ((((b * k : Nat) : Int)) != 0) = true := by simpa using hz
      rw [if_pos hbne]
      have hbne2 : (((b * k : Nat)) != 0) = true := by simpa using hz
      rw [if_pos hbne2]
      omega
  · unfold scrollingBlockSize
    rw [hc]
    simp only [if_true, Option.getD_some]
    rw [hdiv]
    by_cases hz : b * k = 0
    · rw [hz]
      simp
    · simp [hz]

/-- With `block` omitted, the float path multiplies by a converted zero, so
the result is always the `len(chars)` fallback. -/
theorem scrollingBlockSizePy_noBlock (flR : ℚ → ℚ) (hfl : RoundsIntsExactly flR)
    (charsLen : Nat) (length la : Option Nat) :
    scrollingBlockSizePy flR charsLen length none la = charsLen := by
  unfold scrollingBlockSizePy
  have h0 : flR ((0 : Nat) : ℚ) = ((0 : Nat) : ℚ) := hfl 0 (by norm_num)
  cases hcond : (optT length && optT la) with
  | false => simp
  | true =>
    have h0q : flR (0 : ℚ) = (0 : ℚ) := by simpa using h0
    have h2 : pyInt (flR (flR (0 : ℚ) * flR (flR ((la.getD 0 : Nat) : ℚ)
        / flR ((length.getD 0 : Nat) : ℚ)))) = 0 := by
      rw [h0q, zero_mul, h0q]
      simp [pyInt]
    simp [h2]

/-- When the two widths are not both truthy, the ratio is the integer 1 and
the block size is `block or len(chars)`, with no float arithmetic. -/
theorem scrollingBlockSizePy_one (flR : ℚ → ℚ) (charsLen b : Nat)
    (length la : Option Nat) (hcond : (optT length && optT la) = false) :
    scrollingBlockSizePy flR charsLen length (some b) la
      = (if b ≠ 0 then b else charsLen) := by
  unfold scrollingBlockSizePy
  rw [hcond]
  simp only [Bool.false_eq_true, if_false, Option.getD_some]
  by_cases hb : b = 0
  · rw [hb]
    simp
  · simp [hb]

theorem scrollingNatural_pos (chars : String) (length : Option Nat)
    (hchars : chars.length ≠ 0) : 1 ≤ scrollingNatural chars length := by
  unfold scrollingNatural
  cases length with
  | none => simp only [orElseT]; omega
  | some n =>
    simp only [orElseT]
    split
    · rename_i h
      have h2 : ¬ (n = 0) := by simpa using h
      omega
    · omega

theorem eachLength_laOk (la : Option Nat) (n : Nat) (hla : laOk la) (hn : 0 < n) :
    laOk (eachLength la n) := by
  unfold eachLength
  cases la with
  | none => exact trivial
  | some w =>
    have hw : 0 < w := hla
    rw [if_pos (optT_some_pos hw)]
    show 0 < ceilDiv w n
    exact (Nat.one_le_div_iff hn).mpr (by omega)

theorem naturalSum_eq (ss : List Builder) : naturalSum ss = (ss.map naturalOf).sum := by
  induction ss with
  | nil => rfl
  | cons x xs ih => simp [naturalSum, ih]

theorem goodList_mem : ∀ (ss : List Builder), GoodList ss = true →
    ∀ x ∈ ss, GoodB x = true := by
  intro ss
  induction ss with
  | nil => intro _ x hx; cases hx
  | cons y ys ih =>
    intro h x hx
    have h2 : (GoodB y && GoodList ys) = true := h
    simp only [Bool.and_eq_true] at h2
    rcases List.mem_cons.mp hx with rfl | hx
    · exact h2.1
    · exact ih h2.2 x hx

theorem goodB_basic_elim (args : List String) (hg : GoodB (.basic args) = true) :
    basicFrames args ≠ [] ∧ ((basicFrames args).headD "").length ≠ 0 ∧
      ∀ f ∈ basicFrames args, f.length = ((basicFrames args).headD "").length := by
  have hg2 : (!(basicFrames args).isEmpty
      && (((basicFrames args).headD "").length != 0)
      && (basicFrames args).all
          (fun f => f.length = ((basicFrames args).headD "").length)) = true := hg
  simp only [Bool.and_eq_true, Bool.not_eq_true', bne_iff_ne, ne_eq, List.all_eq_true,
    decide_eq_true_eq] at hg2
  refine ⟨?_, hg2.1.2, hg2.2⟩
  intro hnil
  have h3 := hg2.1.1
  rw [hnil] at h3
  simp at h3

/-- Every bouncing bind raises: the `blank` keyword passed at src lines 96-99
is not among `scrolling_spinner_factory`'s parameters. -/
theorem bindBouncing_err (rightChars : String) (length : Nat) (block : Option Nat)
    (leftChars : Option String) (blank : String) (hide : Bool) (la : Option Nat) :
    bindBouncing rightChars length block leftChars blank hide la = .error .typeError := by
  unfold bindBouncing
  rw [if_neg (by decide)]

theorem bindBasic_good (args : List String) (la : Option Nat)
    (hgood : GoodB (.basic args) = true) (hla : laOk la) :
    InstGoodAt la (naturalOf (.basic args)) (bindBasic args la) := by
  obtain ⟨hne, hhead, hall⟩ := goodB_basic_elim args hgood
  refine ⟨rfl, ?_, ?_⟩
  · show 1 ≤ (basicFrames args).length
    have := List.length_pos.mpr hne
    omega
  · intro t
    cases la with
    | some w =>
      have hw : 0 < w := hla
      show (fixWidth w _).length = orElseT (some w) (basicNatural args)
      rw [fixWidth_length, orElseT_pos _ hw]
    | none =>
      show ((basicFrames args).getD (t % (basicFrames args).length) "").length
          = basicNatural args
      have hpos : 0 < (basicFrames args).length := List.length_pos.mpr hne
      have hlt : t % (basicFrames args).length < (basicFrames args).length :=
        Nat.mod_lt _ hpos
      rw [List.getD_eq_getElem?_getD, List.getElem?_eq_getElem hlt]
      exact hall _ (List.getElem_mem hlt)

theorem bindScrolling_good (chars : String) (length block : Option Nat)
    (background : Option String) (right hide overlay : Bool) (la : Option Nat)
    (hchars : chars.length ≠ 0) (inst : SpinnerInstance)
    (h : bindScrolling chars length block background right hide overlay la = .ok inst) :
    InstGoodAt la (scrollingNatural chars length) inst := by
  unfold bindScrolling at h
  split at h
  · cases h
  · cases h
    refine ⟨rfl, ?_, ?_⟩
    · have h1 := scrollingBlockSize_pos chars length block la hchars
      show 1 ≤ scrollingGap hide (orElseT la (scrollingNatural chars length))
          (scrollingBlockSize chars.length length block la)
        + scrollingBlockSize chars.length length block la
      omega
    · intro t
      cases overlay with
      | true => exact overlayWindow_length _ _ _ _ _ _ t
      | false => exact staticWindow_length _ _ _ _ _ _ t

theorem bindList_good (el : Option Nat) (hel : laOk el) :
    ∀ (ss : List Builder) (insts : List SpinnerInstance),
      (∀ x ∈ ss, GoodB x = true ∧ BuilderGoodP x) →
      bindList ss el = .ok insts →
      insts.map (fun i => i.width) = ss.map (fun x => orElseT el (naturalOf x)) ∧
      (∀ i ∈ insts, 1 ≤ i.cycles ∧ ∀ t, (i.stream t).length = i.width) := by
  intro ss
  induction ss with
  | nil =>
    intro insts H h
    unfold bindList at h
    cases h
    exact ⟨rfl, by intro i hi; cases hi⟩
  | cons x xs ih =>
    intro insts H h
    unfold bindList at h
    cases hx : bind x el with
    | error e => rw [hx] at h; cases h
    | ok i =>
      rw [hx] at h
      cases hxs : bindList xs el with
      | error e => rw [hxs] at h; cases h
      | ok is =>
        rw [hxs] at h
        cases h
        obtain ⟨hg, hp⟩ := H x (List.mem_cons_self _ _)
        have hinst : InstGoodAt el (naturalOf x) i := hp.2 el hel i hx
        obtain ⟨hmap, hrest⟩ := ih is (fun y hy => H y (List.mem_cons_of_mem _ hy)) hxs
        constructor
        · simp only [List.map_cons, hinst.1, hmap]
        · intro j hj
          rcases List.mem_cons.mp hj with rfl | hj2
          · exact ⟨hinst.2.1, hinst.2.2⟩
          · exact hrest j hj2

theorem enumFrom_replicate {α : Type} (x : α) : ∀ (n k : Nat),
    List.enumFrom k (List.replicate n x) = (List.range' k n).map (fun i => (i, x)) := by
  intro n
  induction n with
  | zero => intro k; rfl
  | succ m ih =>
    intro k
    show (k, x) :: List.enumFrom (k + 1) (List.replicate m x) = _
    rw [ih, List.range'_succ, List.map_cons]

theorem shiftPlayers_replicate (offset ca : Nat) (s : Nat → String) :
    shiftPlayers offset (List.replicate ca s)
      = (List.range ca).map (fun i => fun t => s (t + i * offset)) := by
  unfold shiftPlayers
  show (List.enumFrom 0 (List.replicate ca s)).map _ = _
  rw [enumFrom_replicate, ← List.range_eq_range', List.map_map]
  rfl

/-- Under any interleaving, each Player's frame output is exactly its own
stream read from its own position for as many steps as it was scheduled —
independent of the other Player and of the interleaving. -/
theorem runSched_spec : ∀ (sch : List Bool) (p q : PlayerSt),
    runSched sch p q
      = (readAhead p.stream p.pos (sch.count true),
         readAhead q.stream q.pos (sch.count false)) := by
  intro sch
  induction sch with
  | nil => intro p q; rfl
  | cons b sch ih =>
    intro p q
    cases b with
    | true =>
      show (((playNext p).1 :: (runSched sch (playNext p).2 q).1,
             (runSched sch (playNext p).2 q).2) : List String × List String) = _
      rw [ih]
      simp [playNext, readAhead, List.count_cons]
    | false =>
      show (((runSched sch p (playNext q).2).1,
             (playNext q).1 :: (runSched sch p (playNext q).2).2) : List String × List String) = _
      rw [ih]
      simp [playNext, readAhead, List.count_cons]

/-! ### Claim C1. -/

/-- C1: for every scrolling builder bound at a (positive) width, the
instance's `cycles` equals `gap + blockSize`, with `gap = boundWidth` when
hiding and `gap = max(0, boundWidth - blockSize)` otherwise; and in the
concrete case `chars="x"`, `length=5`, `hiding`, `right`, bound at its
natural width 5, `cycles = 6` and the restarted output is periodic with
period 6. -/
theorem c1_scrolling_cycles :
    (∀ (chars : String) (length block : Option Nat) (background : Option String)
        (right hide overlay : Bool) (W : Nat), 0 < W →
        cyclesOf (bindScrolling chars length block background right hide overlay (some W)) =
          (if hide then W
           else W - scrollingBlockSize chars.length length block (some W)) +
            scrollingBlockSize chars.length length block (some W)) ∧
    (cyclesOf (bindScrolling "x" (some 5) none none true true false (some 5)) = 6 ∧
     ∀ t, streamAt (bindScrolling "x" (some 5) none none true true false (some 5)) (t + 6)
        = streamAt (bindScrolling "x" (some 5) none none true true false (some 5)) t) := by
  refine ⟨?_, rfl, ?_⟩
  · intro chars length block background right hide overlay W hW
    unfold bindScrolling
    rw [if_neg (by rw [optT_some_pos hW]; simp)]
    simp only [cyclesOf]
    rw [orElseT_pos _ hW]
    rfl
  · intro t
    exact staticWindow_period " " 5 ["x"] 5 (-1) 0 6 (by decide) t

/-- C1 witness: the general cycles formula applied at the concrete builder of
the claim. -/
theorem c1_scrolling_cycles_witness :
    0 < 5 ∧
    cyclesOf (bindScrolling "x" (some 5) none none true true false (some 5)) =
      (if true then 5
       else 5 - scrollingBlockSize "x".length (some 5) none (some 5)) +
        scrollingBlockSize "x".length (some 5) none (some 5) :=
  ⟨by decide, c1_scrolling_cycles.1 "x" (some 5) none none true true false 5 (by decide)⟩

/-! ### Claim C2. -/

/-- C2 counterexample: with `length=10`, `block=1`, bound at width 5, the
claimed `blockSize = floor(block * ratio)` is 0, but the code's
`int(...) or len(chars)` falls back to the full width of `chars` (here 2). -/
theorem c2_blockSize_cx :
    ¬ (scrollingBlockSize 2 (some 10) (some 1) (some 5) = 1 * 5 / 10) := by decide

/-- C2 (amended): the program computes the block size through binary64
floating point (`int((block or 0) * (float(boundWidth)/length))`), whose
two-step rounding can deviate from the exact `floor(block * ratio)` at
non-integral ratios; for every rounding function that is exact on integers
below `2 ^ 53` (as IEEE binary64 is), whenever `length` divides `boundWidth`
and the values fit in 53 bits, the computation is exact and the block size
equals `block * (boundWidth / length)` when that is nonzero, falling back to
the full width of `chars` when it is zero; with `block` omitted, or when the
widths are not both known (ratio 1, no float arithmetic), the `block or
len(chars)` behavior holds; the concrete rescaling `length=10, block=2,
boundWidth=20` gives `blockSize=4`. -/
theorem c2_blockSize_amended :
    (∀ (flR : ℚ → ℚ), RoundsIntsExactly flR →
      ∀ (charsLen L b W : Nat), 0 < L → 0 < W → L ∣ W →
        b < 2 ^ 53 → W < 2 ^ 53 → b * (W / L) < 2 ^ 53 →
        scrollingBlockSizePy flR charsLen (some L) (some b) (some W)
            = scrollingBlockSize charsLen (some L) (some b) (some W) ∧
        scrollingBlockSize charsLen (some L) (some b) (some W)
            = (if b * W / L ≠ 0 then b * W / L else charsLen)) ∧
    (∀ (flR : ℚ → ℚ), RoundsIntsExactly flR →
      ∀ (charsLen : Nat) (length la : Option Nat),
        scrollingBlockSizePy flR charsLen length none la = charsLen) ∧
    (∀ (flR : ℚ → ℚ) (charsLen b : Nat) (length la : Option Nat),
        (optT length && optT la) = false →
        scrollingBlockSizePy flR charsLen length (some b) la
          = (if b ≠ 0 then b else charsLen)) ∧
    (∀ (flR : ℚ → ℚ), RoundsIntsExactly flR →
        scrollingBlockSizePy flR 2 (some 10) (some 2) (some 20) = 4) := by
  refine ⟨fun flR hfl charsLen L b W hL hW hdvd hb hWb hbk =>
      scrollingBlockSizePy_exact flR hfl charsLen L b W hL hW hdvd hb hWb hbk,
    fun flR hfl charsLen length la =>
      scrollingBlockSizePy_noBlock flR hfl charsLen length la,
    fun flR charsLen b length la hcond =>
      scrollingBlockSizePy_one flR charsLen b length la hcond, ?_⟩
  intro flR hfl
  have h := scrollingBlockSizePy_exact flR hfl 2 10 2 20 (by norm_num) (by norm_num)
    (by norm_num) (by norm_num) (by norm_num) (by norm_num)
  rw [h.1]
  decide

/-- C2 witness: the exactness clause of the amended claim applied at the
claim's concrete rescaling instance, with the identity as a rounding
function exact on small integers. -/
theorem c2_blockSize_witness :
    (RoundsIntsExactly (fun q => q) ∧ 0 < 10 ∧ 0 < 20 ∧ 10 ∣ 20 ∧
      2 < 2 ^ 53 ∧ 20 < 2 ^ 53 ∧ 2 * (20 / 10) < 2 ^ 53) ∧
    (scrollingBlockSizePy (fun q => q) 2 (some 10) (some 2) (some 20)
        = scrollingBlockSize 2 (some 10) (some 2) (some 20) ∧
     scrollingBlockSize 2 (some 10) (some 2) (some 20)
        = (if 2 * 20 / 10 ≠ 0 then 2 * 20 / 10 else 2)) := by
  refine ⟨⟨fun z hz => rfl, by norm_num, by norm_num, by norm_num,
    by norm_num, by norm_num, by norm_num⟩, ?_⟩
  exact c2_blockSize_amended.1 (fun q => q) (fun z hz => rfl) 2 10 2 20
    (by norm_num) (by norm_num) (by norm_num) (by norm_num) (by norm_num)
    (by norm_num)

/-! ### Claim C3. -/

/-- C3 counterexample: `block` set to 0 with no width known anywhere — the
claim as stated predicts a configuration error, but Python's truthiness test
(`if block and ...`) skips falsy 0 and the bind succeeds. -/
theorem c3_error_cx :
    ¬ (isErrE (bindScrolling "ab" none (some 0) none true true false none) = true) := by
  decide

/-- C3 (amended): binding a scrolling builder raises exactly when `block` is
set nonzero (truthy) and neither the definition-time `length` nor the bind
width is nonzero; the error is raised at bind time and binding never fails on
any other input. -/
theorem c3_error_iff :
    ∀ (chars : String) (length block : Option Nat) (background : Option String)
      (right hide overlay : Bool) (la : Option Nat),
      isErrE (bindScrolling chars length block background right hide overlay la)
        = (optT block && !(optT la || optT length)) := by
  intro chars length block background right hide overlay la
  unfold bindScrolling
  by_cases h : (optT block && !(optT la || optT length)) = true
  · rw [if_pos h, h]
    rfl
  · rw [if_neg h]
    rw [Bool.not_eq_true] at h
    simp only [isErrE, isOkE, Bool.not_true]
    exact h.symm

/-! ### Claim C4. -/

/-- C4 counterexample: a bouncing builder constructed without `leftChars`
over `rightChars = "ab"` uses "ab" for the leftward pass, not the mirror
"ba" (src line 123 is `left_chars or right_chars`, with no reversal). -/
theorem c4_mirror_cx :
    ¬ (bouncingLeftChars "ab" none = String.mk ("ab".data.reverse)) := by decide

/-- C4 (amended): without `leftChars`, the leftward pass scrolls `rightChars`
itself, in the same order; whenever the mirror differs from `rightChars` the
leftward character sequence is not the mirror. -/
theorem c4_left_unreversed :
    ∀ (rc : String), bouncingLeftChars rc none = rc ∧
      (String.mk rc.data.reverse ≠ rc →
        bouncingLeftChars rc none ≠ String.mk rc.data.reverse) := by
  intro rc
  refine ⟨rfl, ?_⟩
  intro hne h
  exact hne h.symm

/-- C4 witness: the amended statement applied at `rightChars = "ab"`. -/
theorem c4_left_unreversed_witness :
    String.mk "ab".data.reverse ≠ "ab" ∧
    bouncingLeftChars "ab" none ≠ String.mk "ab".data.reverse :=
  ⟨by decide, (c4_left_unreversed "ab").2 (by decide)⟩

/-! ### Claim C5. -/

/-- C5 (code bug): binding any bouncing builder raises `TypeError`, because
src lines 96-99 pass the keyword argument `blank` to
`scrolling_spinner_factory`, whose parameters (src lines 35-36) do not
include it; under the spec's intended composition (blank shared as the
scrolling background) the claim's concrete instance `rightChars="o"`,
`length=3`, `hiding=true` would indeed have `cycles = 8`, with ticks 0-3
equal to the rightward scroller's frames and ticks 4-7 equal to the leftward
scroller's frames. -/
theorem c5_bouncing_blank_bug :
    (∀ (rightChars : String) (length : Nat) (block : Option Nat)
        (leftChars : Option String) (blank : String) (hide : Bool) (la : Option Nat),
        bindBouncing rightChars length block leftChars blank hide la = .error .typeError) ∧
    scrollingKwParams.contains "blank" = false ∧
    cyclesOf (bouncingIntended "o" 3 none none " " true none) = 8 ∧
    ((List.range 4).all (fun t =>
        streamAt (bouncingIntended "o" 3 none none " " true none) t
          == streamAt (bindScrolling "o" (some 3) none (some " ") true true false none) t)
      = true) ∧
    ((List.range 4).all (fun t =>
        streamAt (bouncingIntended "o" 3 none none " " true none) (4 + t)
          == streamAt (bindScrolling "o" (some 3) none (some " ") false true false none) t)
      = true) := by
  refine ⟨?_, by decide, rfl, by decide, by decide⟩
  intro rightChars length block leftChars blank hide la
  unfold bindBouncing
  rw [if_neg (by decide)]

/-! ### Claim C6. -/

/-- C6: a compound builder over `N` sub-builders bound at a width `W`
instantiates each sub-builder at `ceil(W / N)`; the combined instance's
`cycles` is the maximum of the sub-instances' cycles (bounded below by each,
attained by one of them); its players are the sub-instances' endless streams
in builder order, and each tick joins one frame from every player, fixed to
the bound width. -/
theorem c6_compound_lockstep :
    ∀ (subs : List Builder) (W : Nat) (insts : List SpinnerInstance),
      subs ≠ [] → 0 < W →
      bindList subs (some (ceilDiv W subs.length)) = .ok insts →
      bind (.compound subs) (some W) = .ok (compoundAssemble (some W) insts) ∧
      (∀ i ∈ insts, i.cycles ≤ (compoundAssemble (some W) insts).cycles) ∧
      (∃ i ∈ insts, (compoundAssemble (some W) insts).cycles = i.cycles) ∧
      (compoundAssemble (some W) insts).players = insts.map (fun i => i.stream) ∧
      (∀ t, (compoundAssemble (some W) insts).stream t
          = fixWidth W (String.join (insts.map (fun i => i.stream t)))) := by
  intro subs W insts hne hW hbl
  have heach : eachLength (some W) subs.length = some (ceilDiv W subs.length) := by
    unfold eachLength
    rw [if_pos (optT_some_pos hW)]
    rfl
  refine ⟨?_, ?_, ?_, rfl, ?_⟩
  · show (if subs.length = 0 then _ else _) = _
    have hlen0 : subs.length ≠ 0 := by
      simp only [ne_eq, List.length_eq_zero]
      exact hne
    rw [if_neg hlen0, heach, hbl]
  · intro i hi
    exact mem_le_foldl_max _ 0 _ (List.mem_map_of_mem _ hi)
  · have hlen : insts.length = subs.length := bindList_length subs _ insts hbl
    have hpos : 0 < insts.length := by
      rw [hlen]
      exact List.length_pos.mpr hne
    obtain ⟨i0, hi0⟩ := List.exists_mem_of_length_pos hpos
    rcases foldl_max_attained (insts.map (fun i => i.cycles)) 0 with h | ⟨x, hx, hfx⟩
    · refine ⟨i0, hi0, ?_⟩
      have hle := mem_le_foldl_max (insts.map (fun i => i.cycles)) 0 i0.cycles
        (List.mem_map_of_mem _ hi0)
      show (insts.map (fun i => i.cycles)).foldl Nat.max 0 = i0.cycles
      omega
    · obtain ⟨i, hi, hix⟩ := List.mem_map.mp hx
      exact ⟨i, hi, by rw [← hix] at hfx; exact hfx⟩
  · intro t
    show padTo (some W) (String.join ((insts.map (fun i => i.stream)).map (fun p => p t))) = _
    rw [List.map_map]
    rfl

/-- C6 witness: the claim's concrete case — two basic builders with cycles 3
and 5, bound together at width 2 (so each sub-builder is bound at
`ceil(2/2) = 1`): combined `cycles = 5`; at tick 3 the first sub-stream has
restarted to its frame 0 ("a") while the second is at its frame 3 ("y"). -/
theorem c6_compound_lockstep_witness :
    ([Builder.basic ["a", "b", "c"], Builder.basic ["v", "w", "x", "y", "z"]]
        ≠ ([] : List Builder)) ∧
    0 < 2 ∧
    (bindList [Builder.basic ["a", "b", "c"], Builder.basic ["v", "w", "x", "y", "z"]]
        (some (ceilDiv 2 2))
      = .ok [bindBasic ["a", "b", "c"] (some 1), bindBasic ["v", "w", "x", "y", "z"] (some 1)]) ∧
    (bind (.compound [Builder.basic ["a", "b", "c"], Builder.basic ["v", "w", "x", "y", "z"]])
        (some 2)
      = .ok (compoundAssemble (some 2)
          [bindBasic ["a", "b", "c"] (some 1), bindBasic ["v", "w", "x", "y", "z"] (some 1)])) ∧
    cyclesOf (bind (.compound [Builder.basic ["a", "b", "c"],
        Builder.basic ["v", "w", "x", "y", "z"]]) (some 2)) = 5 ∧
    streamAt (bind (.compound [Builder.basic ["a", "b", "c"],
        Builder.basic ["v", "w", "x", "y", "z"]]) (some 2)) 3 = "ay" ∧
    playerAt (bind (.compound [Builder.basic ["a", "b", "c"],
        Builder.basic ["v", "w", "x", "y", "z"]]) (some 2)) 0 3 = "a" ∧
    playerAt (bind (.compound [Builder.basic ["a", "b", "c"],
        Builder.basic ["v", "w", "x", "y", "z"]]) (some 2)) 1 3 = "y" :=
  ⟨List.cons_ne_nil _ _, by decide, rfl,
   (c6_compound_lockstep
      [Builder.basic ["a", "b", "c"], Builder.basic ["v", "w", "x", "y", "z"]] 2
      [bindBasic ["a", "b", "c"] (some 1), bindBasic ["v", "w", "x", "y", "z"] (some 1)]
      (List.cons_ne_nil _ _) (by decide) rfl).1,
   by decide, by decide, by decide, by decide⟩

/-! ### Claim C7. -/

/-- C7: binding a delayed builder discards exactly `i * offset` frames from
the i-th player before the caller reads any — so the i-th player's frame at
tick `t` is the sub-instance's stream at `t + i * offset` — and when the
sub-instance's player stream is periodic with period `subCycles = cycles`,
copy i's frame at tick `t` equals copy 0's frame at tick
`(t + i * offset) % subCycles`. -/
theorem c7_delayed_phase :
    ∀ (subBind : Option Nat → Except PyErr SpinnerInstance)
      (subNatural copies offset : Nat) (la : Option Nat) (ca : Nat)
      (si : SpinnerInstance),
      delayedCopiesActual subNatural copies la = .ok ca →
      ca ≠ 0 →
      subBind (eachLength la ca) = .ok si →
      (∀ i, i < ca → ∀ t,
          playerAt (bindDelayed subBind subNatural copies offset la) i t
            = si.stream (t + i * offset)) ∧
      ((∀ t, si.stream (t + si.cycles) = si.stream t) → 0 < si.cycles →
        ∀ i, i < ca → ∀ t,
          playerAt (bindDelayed subBind subNatural copies offset la) i t
            = playerAt (bindDelayed subBind subNatural copies offset la) 0
                ((t + i * offset) % si.cycles)) := by
  intro subBind subNatural copies offset la ca si h1 h2 h3
  have hplayers : ∀ i, i < ca → ∀ t,
      playerAt (bindDelayed subBind subNatural copies offset la) i t
        = si.stream (t + i * offset) := by
    intro i hi t
    simp only [playerAt, bindDelayed, h1, if_neg h2, h3, compoundAssemble]
    rw [shiftPlayers_getD offset _ i (by simpa using hi)]
    rw [List.getD_eq_getElem?_getD, List.getElem?_map, List.getElem?_replicate, if_pos hi]
    rfl
  refine ⟨hplayers, ?_⟩
  intro hper hcyc i hi t
  rw [hplayers i hi t, hplayers 0 (by omega) ((t + i * offset) % si.cycles)]
  rw [Nat.zero_mul, Nat.add_zero]
  exact periodic_mod si.stream si.cycles hper hcyc (t + i * offset)

/-- C7 witness: the claim's concrete case — a 2-frame basic builder
replicated with `copies = 3`, `offset = 1` (bound at no width, so 3 copies):
copy i's frame at tick t is copy 0's frame at tick `(t + i) % 2`. -/
theorem c7_delayed_phase_witness :
    (delayedCopiesActual 2 3 none = .ok 3) ∧ (3 ≠ 0) ∧
    ((fun el => (Except.ok (bindBasic ["a", "b"] el) : Except PyErr SpinnerInstance))
        (eachLength none 3) = .ok (bindBasic ["a", "b"] none)) ∧
    (∀ i, i < 3 → ∀ t,
        playerAt (bindDelayed
            (fun el => (Except.ok (bindBasic ["a", "b"] el) : Except PyErr SpinnerInstance))
            2 3 1 none) i t
          = (bindBasic ["a", "b"] none).stream (t + i * 1)) ∧
    (∀ i, i < 3 → ∀ t,
        playerAt (bindDelayed
            (fun el => (Except.ok (bindBasic ["a", "b"] el) : Except PyErr SpinnerInstance))
            2 3 1 none) i t
          = playerAt (bindDelayed
              (fun el => (Except.ok (bindBasic ["a", "b"] el) : Except PyErr SpinnerInstance))
              2 3 1 none) 0 ((t + i * 1) % (bindBasic ["a", "b"] none).cycles)) := by
  have h := c7_delayed_phase
    (fun el => (Except.ok (bindBasic ["a", "b"] el) : Except PyErr SpinnerInstance))
    2 3 1 none 3 (bindBasic ["a", "b"] none) rfl (by decide) rfl
  exact ⟨rfl, by decide, rfl, h.1,
    h.2 (basicFrames_period ["a", "b"] none) (by decide)⟩

/-! ### Claim C8. -/

theorem c8_aux : ∀ (n : Nat) (b : Builder), sizeOf b < n → GoodB b = true →
    BuilderGoodP b := by
  intro n
  induction n with
  | zero => intro b hb hg; omega
  | succ n ih =>
    intro b hb hg
    cases b with
    | basic args =>
      obtain ⟨hne, hhead, _⟩ := goodB_basic_elim args hg
      refine ⟨by show 1 ≤ basicNatural args; unfold basicNatural; omega, ?_⟩
      intro la hla inst hbind
      have hi : bindBasic args la = inst := Except.ok.inj hbind
      subst hi
      exact bindBasic_good args la hg hla
    | scrolling chars length block background right hide overlay =>
      have hgb : (chars.length != 0) = true := hg
      have hchars : chars.length ≠ 0 := by simpa using hgb
      refine ⟨scrollingNatural_pos chars length hchars, ?_⟩
      intro la hla inst hbind
      exact bindScrolling_good chars length block background right hide overlay la
        hchars inst hbind
    | bouncing rightChars length block leftChars blank hide =>
      have hgb : (length != 0) = true := hg
      have hlen : length ≠ 0 := by simpa using hgb
      refine ⟨by show 1 ≤ length; omega, ?_⟩
      intro la hla inst hbind
      have hbind2 : bindBouncing rightChars length block leftChars blank hide la
          = .ok inst := hbind
      rw [bindBouncing_err] at hbind2
      cases hbind2
    | compound subs =>
      have hg2 : (!subs.isEmpty && GoodList subs) = true := hg
      simp only [Bool.and_eq_true, Bool.not_eq_true'] at hg2
      have hne : subs ≠ [] := by
        intro hnil
        rw [hnil] at hg2
        simp at hg2
      have hsz : ∀ x ∈ subs, sizeOf x < n := by
        intro x hx
        have h1 := List.sizeOf_lt_of_mem hx
        have h2 : sizeOf (Builder.compound subs) = 1 + sizeOf subs := by simp
        omega
      have hmem : ∀ x ∈ subs, GoodB x = true := goodList_mem subs hg2.2
      have H : ∀ x ∈ subs, GoodB x = true ∧ BuilderGoodP x :=
        fun x hx => ⟨hmem x hx, ih x (hsz x hx) (hmem x hx)⟩
      have hlenpos : 0 < subs.length := List.length_pos.mpr hne
      constructor
      · show 1 ≤ naturalSum subs
        obtain ⟨s0, rest, rfl⟩ : ∃ s0 rest, subs = s0 :: rest := by
          cases subs with
          | nil => exact absurd rfl hne
          | cons a l => exact ⟨a, l, rfl⟩
        have h0 := (H s0 (List.mem_cons_self _ _)).2.1
        show 1 ≤ naturalOf s0 + naturalSum rest
        omega
      · intro la hla inst hbind
        have hlen0 : subs.length ≠ 0 := by omega
        have hbind2 : (match bindList subs (eachLength la subs.length) with
            | .error e => (.error e : Except PyErr SpinnerInstance)
            | .ok insts => .ok (compoundAssemble la insts)) = .ok inst := by
          have hr : bind (.compound subs) la
              = (if subs.length = 0 then .error (compoundEmptyErr la)
                 else match bindList subs (eachLength la subs.length) with
                   | .error e => .error e
                   | .ok insts => .ok (compoundAssemble la insts)) := rfl
          rw [hr, if_neg hlen0] at hbind
          exact hbind
        cases hbl : bindList subs (eachLength la subs.length) with
        | error e => rw [hbl] at hbind2; cases hbind2
        | ok insts =>
          rw [hbl] at hbind2
          have hi := Except.ok.inj hbind2
          subst hi
          have hel : laOk (eachLength la subs.length) := eachLength_laOk la _ hla hlenpos
          obtain ⟨hmap, hitems⟩ := bindList_good _ hel subs insts H hbl
          have hleninsts : insts.length = subs.length := bindList_length subs _ insts hbl
          have hipos : 0 < insts.length := by omega
          refine ⟨?_, ?_, ?_⟩
          · show orElseT la ((insts.map (fun i => i.width)).sum)
                = orElseT la (naturalSum subs)
            cases la with
            | some w =>
              have hw : 0 < w := hla
              rw [orElseT_pos _ hw, orElseT_pos _ hw]
            | none =>
              show (insts.map (fun i => i.width)).sum = naturalSum subs
              rw [hmap, naturalSum_eq]
              rfl
          · obtain ⟨i0, hi0⟩ := List.exists_mem_of_length_pos hipos
            have h1 := (hitems i0 hi0).1
            have h2 := mem_le_foldl_max (insts.map (fun i => i.cycles)) 0 i0.cycles
              (List.mem_map_of_mem _ hi0)
            show 1 ≤ (insts.map (fun i => i.cycles)).foldl Nat.max 0
            omega
          · intro t
            cases la with
            | some w =>
              have hw : 0 < w := hla
              show (fixWidth w _).length = orElseT (some w) _
              rw [fixWidth_length, orElseT_pos _ hw]
            | none =>
              show (String.join ((insts.map (fun i => i.stream)).map (fun p => p t))).length
                  = (insts.map (fun i => i.width)).sum
              rw [join_length, List.map_map, List.map_map]
              congr 1
              exact List.map_congr_left (fun i hi => (hitems i hi).2 t)
    | delayed sub copies offset =>
      have hg2 : (copies != 0 && GoodB sub) = true := hg
      simp only [Bool.and_eq_true, bne_iff_ne, ne_eq] at hg2
      have hszsub : sizeOf sub < n := by
        have h2 : sizeOf (Builder.delayed sub copies offset)
            = 1 + sizeOf sub + sizeOf copies + sizeOf offset := by simp
        have h3 : 0 ≤ sizeOf copies := Nat.zero_le _
        omega
      have ihsub := ih sub hszsub hg2.2
      constructor
      · show 1 ≤ naturalOf sub * copies
        have h1 := ihsub.1
        have h2 : copies ≠ 0 := hg2.1
        exact Nat.mul_pos h1 (by omega)
      · intro la hla inst hbind
        have hca : ∃ ca, delayedCopiesActual (naturalOf sub) copies la = .ok ca ∧
            0 < ca := by
          cases la with
          | none => exact ⟨copies, rfl, by have := hg2.1; omega⟩
          | some w =>
            have hw : 0 < w := hla
            have hnat : ¬ (naturalOf sub = 0) := by have := ihsub.1; omega
            refine ⟨ceilDiv w (naturalOf sub), ?_, ?_⟩
            · show (if optT (some w) then _ else _ : Except PyErr Nat) = _
              rw [if_pos (optT_some_pos hw), if_neg hnat]
              rfl
            · show 0 < ceilDiv w (naturalOf sub)
              exact (Nat.one_le_div_iff (by have := ihsub.1; omega)).mpr (by omega)
        obtain ⟨ca, hcaeq, hcapos⟩ := hca
        have hbind2 : (if ca = 0 then (.error (compoundEmptyErr la) : Except PyErr SpinnerInstance)
            else match bind sub (eachLength la ca) with
              | .error e => .error e
              | .ok si => .ok { cycles := (compoundAssemble la (List.replicate ca si)).cycles
                                width := (compoundAssemble la (List.replicate ca si)).width
                                stream := fun t => padTo la (String.join
                                  ((shiftPlayers offset
                                    (compoundAssemble la (List.replicate ca si)).players).map
                                      (fun p => p t)))
                                players := shiftPlayers offset
                                  (compoundAssemble la (List.replicate ca si)).players })
            = .ok inst := by
          have hb0 : bindDelayed (fun el => bind sub el) (naturalOf sub) copies offset la
              = .ok inst := hbind
          unfold bindDelayed at hb0
          rw [hcaeq] at hb0
          exact hb0
        rw [if_neg (by omega)] at hbind2
        cases hsub : bind sub (eachLength la ca) with
        | error e => rw [hsub] at hbind2; cases hbind2
        | ok si =>
          rw [hsub] at hbind2
          have hi := Except.ok.inj hbind2
          subst hi
          have hel : laOk (eachLength la ca) := eachLength_laOk la ca hla hcapos
          have hsi : InstGoodAt (eachLength la ca) (naturalOf sub) si :=
            ihsub.2 _ hel si hsub
          have hsum : ((List.replicate ca si).map (fun i => i.width)).sum
              = ca * si.width := by
            rw [List.map_replicate]
            simp [List.sum_replicate, smul_eq_mul]
          refine ⟨?_, ?_, ?_⟩
          · show orElseT la (((List.replicate ca si).map (fun i => i.width)).sum)
                = orElseT la (naturalOf sub * copies)
            cases la with
            | some w =>
              have hw : 0 < w := hla
              rw [orElseT_pos _ hw, orElseT_pos _ hw]
            | none =>
              have hcac : copies = ca := Except.ok.inj hcaeq
              have hsiw : si.width = naturalOf sub := hsi.1
              show ((List.replicate ca si).map (fun i => i.width)).sum
                  = naturalOf sub * copies
              rw [hsum, hsiw, hcac, Nat.mul_comm]
          · have hmem : si.cycles ∈ List.replicate ca si.cycles := by
              rw [List.mem_replicate]
              exact ⟨by omega, rfl⟩
            have h2 := mem_le_foldl_max (List.replicate ca si.cycles) 0 si.cycles hmem
            have h1 := hsi.2.1
            show 1 ≤ ((List.replicate ca si).map (fun i => i.cycles)).foldl Nat.max 0
            rw [List.map_replicate]
            omega
          · intro t
            cases la with
            | some w =>
              have hw : 0 < w := hla
              show (fixWidth w _).length = orElseT (some w) _
              rw [fixWidth_length, orElseT_pos _ hw]
            | none =>
              show (String.join ((shiftPlayers offset
                  ((List.replicate ca si).map (fun i => i.stream))).map
                    (fun p => p t))).length
                = orElseT none (((List.replicate ca si).map (fun i => i.width)).sum)
              have hps : (List.replicate ca si).map (fun i => i.stream)
                  = List.replicate ca si.stream := List.map_replicate ..
              rw [hps, shiftPlayers_replicate, join_length, List.map_map, List.map_map]
              have hconst : (List.range ca).map
                    (fun i => String.length ((fun t2 => si.stream (t2 + i * offset)) t))
                  = (List.range ca).map (fun i => si.width) := by
                apply List.map_congr_left
                intro i hi2
                exact hsi.2.2 (t + i * offset)
              show ((List.range ca).map
                  (fun i => String.length ((fun t2 => si.stream (t2 + i * offset)) t))).sum
                = _
              rw [hconst, List.map_const', List.sum_replicate, List.length_range,
                smul_eq_mul]
              show ca * si.width = orElseT none (((List.replicate ca si).map
                  (fun i => i.width)).sum)
              rw [hsum]
              rfl

/-- C8 counterexample: a scrolling builder over empty `chars` has
`natural = 0` (src line 87: `length or len(chars)`), and binding it at no
width yields an instance with `cycles = 0`, contradicting the claimed
unconditional invariants `natural ≥ 1` and `cycles ≥ 1`. -/
theorem c8_invariants_cx :
    ¬ (1 ≤ naturalOf (.scrolling "" none none none true true false)) ∧
    cyclesOf (bind (.scrolling "" none none none true true false) none) = 0 :=
  ⟨by decide, rfl⟩

/-- C8 (amended): for every builder with nondegenerate configuration (basic
frame list nonempty, all frames of the first frame's nonzero width; scrolling
chars nonempty; bouncing length nonzero; compound nonempty over such
builders; delayed with nonzero copies over such a builder), the builder's
`natural` is at least 1, and every instance bound at an absent or positive
width has its bound width equal to the requested width (or `natural` when
absent), `cycles ≥ 1`, and every frame of exactly the bound width.
Degenerate configurations violate the unconditional claim (see the
counterexample). -/
theorem c8_invariants_amended :
    ∀ (b : Builder), GoodB b = true →
      1 ≤ naturalOf b ∧
      ∀ (la : Option Nat), laOk la →
        ∀ (inst : SpinnerInstance), bind b la = .ok inst →
          inst.width = orElseT la (naturalOf b) ∧ 1 ≤ inst.cycles ∧
          ∀ t, (inst.stream t).length = inst.width := by
  intro b hg
  have h := c8_aux (sizeOf b + 1) b (by omega) hg
  exact ⟨h.1, fun la hla inst hbind => h.2 la hla inst hbind⟩

/-- C8 witness: the amended invariants applied to a concrete basic builder
bound at width 2. -/
theorem c8_invariants_amended_witness :
    (GoodB (.basic ["a", "b", "c"]) = true) ∧ laOk (some 2) ∧
    (bind (.basic ["a", "b", "c"]) (some 2) = .ok (bindBasic ["a", "b", "c"] (some 2))) ∧
    (1 ≤ naturalOf (.basic ["a", "b", "c"]) ∧
     (bindBasic ["a", "b", "c"] (some 2)).width
        = orElseT (some 2) (naturalOf (.basic ["a", "b", "c"])) ∧
     1 ≤ (bindBasic ["a", "b", "c"] (some 2)).cycles ∧
     ∀ t, ((bindBasic ["a", "b", "c"] (some 2)).stream t).length
        = (bindBasic ["a", "b", "c"] (some 2)).width) := by
  have h := c8_invariants_amended (.basic ["a", "b", "c"]) (by decide)
  have h2 := h.2 (some 2) (by decide) (bindBasic ["a", "b", "c"] (some 2)) rfl
  exact ⟨by decide, by decide, rfl, h.1, h2.1, h2.2.1, h2.2.2⟩

/-! ### Claim C9. -/

/-- C9: instantiating a builder twice at the same width yields instances with
byte-identical frame streams, and under any interleaved reading of the two
resulting Players, each side's output is exactly its own stream prefix —
advancing one Player never changes any frame the other produces.  (Bind is a
pure function of the configuration and width, and each Player owns its
generator state exclusively.) -/
theorem c9_pure_independent :
    ∀ (b : Builder) (la : Option Nat) (i1 i2 : SpinnerInstance),
      bind b la = .ok i1 → bind b la = .ok i2 →
      (∀ t, i1.stream t = i2.stream t) ∧
      (∀ sch : List Bool,
        runSched sch ⟨i1.stream, 0⟩ ⟨i2.stream, 0⟩
          = (readAhead i1.stream 0 (sch.count true),
             readAhead i2.stream 0 (sch.count false))) := by
  intro b la i1 i2 h1 h2
  rw [h1] at h2
  have hi : i1 = i2 := Except.ok.inj h2
  subst hi
  exact ⟨fun t => rfl, fun sch => runSched_spec sch _ _⟩

/-- C9 witness: the theorem applied to a concrete basic builder bound twice
at its natural width. -/
theorem c9_pure_independent_witness :
    (bind (.basic ["a"]) none = .ok (bindBasic ["a"] none)) ∧
    (∀ t, (bindBasic ["a"] none).stream t = (bindBasic ["a"] none).stream t) ∧
    (∀ sch : List Bool,
        runSched sch ⟨(bindBasic ["a"] none).stream, 0⟩ ⟨(bindBasic ["a"] none).stream, 0⟩
          = (readAhead (bindBasic ["a"] none).stream 0 (sch.count true),
             readAhead (bindBasic ["a"] none).stream 0 (sch.count false))) := by
  have h := c9_pure_independent (.basic ["a"]) none
    (bindBasic ["a"] none) (bindBasic ["a"] none) rfl rfl
  exact ⟨rfl, h.1, h.2⟩

/-! ### Claim C10. -/

/-- C10: a compound builder over zero sub-builders has `natural = 0`, and
binding it always raises before any instance is produced —
`ZeroDivisionError` from the width apportioning when the given width is
truthy, else `ValueError` from taking `max` of the empty spinner list — so a
caller can never obtain an instance from it. -/
theorem c10_compound_empty_never_binds :
    naturalOf (.compound []) = 0 ∧
    (∀ la, bind (.compound []) la
        = .error (if optT la then PyErr.zeroDivisionError else PyErr.valueError)) ∧
    bind (.compound []) (some 3) = .error .zeroDivisionError ∧
    bind (.compound []) none = .error .valueError := by
  refine ⟨rfl, ?_, rfl, rfl⟩
  intro la
  rfl

end AliveProgress
